import Mathlib

/-!
# Verification of the crypto portfolio risk service

Shallow embedding of the analysis / storage core of the service
(valuation, risk metrics, time-series alignment, data fetching,
idempotent backfill, Aave lending metrics) together with proofs of the
specification claims about it.

Conventions of the embedding:
* money / rates / indices are `ℚ` (the source uses fixed-point decimals
  and floats; the claims under scrutiny are exact algebraic statements);
* timestamps are `ℕ` (hours since an epoch; the native spot cadence of
  12 h is the literal `12`);
* Python dicts keyed by strings become association lists `List (String × _)`
  looked up with `List.find?`, mirroring insertion order;
* fallible code (raising `ValueError`) returns `Except String _`.
-/

namespace Portfolio

/-- A request-time position, mirroring the Python position dict.
Absent optional dict keys are modelled by the same defaults that
`dict.get` supplies in the source (`entry_price` 0.0, `leverage` 1.0,
`borrow_type` "variable", missing `entry_index` as `none`).
The `value` field mirrors the `"value"` key that the risk-profile
orchestrator attaches before computing lending metrics (default 0.0). -/
structure Position where
  asset : String
  quantity : ℚ
  position_type : String
  entry_price : ℚ := 0
  leverage : ℚ := 1
  entry_index : Option ℚ := none
  borrow_type : String := "variable"
  value : ℚ := 0
deriving Repr, DecidableEq

/-- `calculate_spot_value` from `analysis/valuation.py`. -/
def calculate_spot_value (quantity current_price : ℚ) : ℚ :=
  quantity * current_price

/-- `calculate_futures_long_value` from `analysis/valuation.py`:
margin = qty·entry/lev, pnl = (P − entry)·qty, value = margin + pnl. -/
def calculate_futures_long_value
    (quantity entry_price current_price leverage : ℚ) : ℚ :=
  let margin := (quantity * entry_price) / leverage
  let pnl := (current_price - entry_price) * quantity
  margin + pnl

/-- `calculate_futures_short_value` from `analysis/valuation.py`. -/
def calculate_futures_short_value
    (quantity entry_price current_price leverage : ℚ) : ℚ :=
  let margin := (quantity * entry_price) / leverage
  let pnl := (entry_price - current_price) * quantity
  margin + pnl

/-- `calculate_delta_exposure` from `analysis/valuation.py`:
a fold over the positions adding spot and futures-long quantities and
subtracting futures-short quantities; all other position types are
ignored, and leverage is never consulted. -/
def calculate_delta_exposure (positions : List Position) : ℚ :=
  positions.foldl
    (fun delta p =>
      if p.position_type = "spot" then delta + p.quantity
      else if p.position_type = "futures_long" then delta + p.quantity
      else if p.position_type = "futures_short" then delta - p.quantity
      else delta)
    0

/-- The per-position step of `calculate_delta_exposure`. -/
def deltaStep (delta : ℚ) (p : Position) : ℚ :=
  if p.position_type = "spot" then delta + p.quantity
  else if p.position_type = "futures_long" then delta + p.quantity
  else if p.position_type = "futures_short" then delta - p.quantity
  else delta

theorem calculate_delta_exposure_eq_foldl (positions : List Position) :
    calculate_delta_exposure positions = positions.foldl deltaStep 0 := rfl

theorem deltaStep_shift (a d : ℚ) (p : Position) :
    deltaStep (a + d) p = deltaStep a p + d := by
  unfold deltaStep
  split <;> [ring; skip]
  split <;> [ring; skip]
  split <;> ring

theorem foldl_deltaStep_shift (ps : List Position) (a d : ℚ) :
    ps.foldl deltaStep (a + d) = ps.foldl deltaStep a + d := by
  induction ps generalizing a d with
  | nil => simp
  | cons p ps ih =>
      simp only [List.foldl_cons, deltaStep_shift]
      exact ih _ _

/-- Quantities of the positions of a given `position_type`. -/
def typeQuantities (t : String) (positions : List Position) : ℚ :=
  ((positions.filter (fun p => p.position_type = t)).map Position.quantity).sum

/-- Doubling the leverage of every futures position, leaving everything
else untouched. -/
def doubleFuturesLeverage (p : Position) : Position :=
  if p.position_type = "futures_long" ∨ p.position_type = "futures_short" then
    { p with leverage := 2 * p.leverage }
  else p

theorem deltaStep_doubleFuturesLeverage (a : ℚ) (p : Position) :
    deltaStep a (doubleFuturesLeverage p) = deltaStep a p := by
  unfold doubleFuturesLeverage deltaStep
  split <;> simp

theorem foldl_deltaStep_eq (ps : List Position) (a : ℚ) :
    ps.foldl deltaStep a = a + ps.foldl deltaStep 0 := by
  have := foldl_deltaStep_shift ps 0 a
  simpa [add_comm] using this

theorem delta_decomposition (positions : List Position) :
    positions.foldl deltaStep 0 =
      typeQuantities "spot" positions + typeQuantities "futures_long" positions
        - typeQuantities "futures_short" positions := by
  induction positions with
  | nil => simp [typeQuantities]
  | cons p ps ih =>
      rw [List.foldl_cons, foldl_deltaStep_eq, ih]
      by_cases hs : p.position_type = "spot"
      · simp [deltaStep, typeQuantities, List.filter_cons, hs]
        ring
      · by_cases hl : p.position_type = "futures_long"
        · simp [deltaStep, typeQuantities, List.filter_cons, hs, hl]
          ring
        · by_cases hsh : p.position_type = "futures_short"
          · simp [deltaStep, typeQuantities, List.filter_cons, hs, hl, hsh]
            ring
          · simp [deltaStep, typeQuantities, List.filter_cons, hs, hl, hsh]

/-- `calculate_lending_supply_value` from `analysis/valuation.py`
(raises `ValueError` on non-positive indices). -/
def calculate_lending_supply_value
    (initial_amount entry_index current_index : ℚ) : Except String ℚ :=
  if entry_index ≤ 0 then .error "entry_index must be positive"
  else if current_index ≤ 0 then .error "current_index must be positive"
  else .ok (initial_amount * (current_index / entry_index))

/-- `calculate_lending_borrow_value` from `analysis/valuation.py`:
stable borrows use the same index mechanic as variable ones, any other
`borrow_type` raises `ValueError`; the debt is returned negated. -/
def calculate_lending_borrow_value
    (initial_amount entry_index current_index : ℚ) (borrow_type : String) :
    Except String ℚ :=
  if entry_index ≤ 0 then .error "entry_index must be positive"
  else if current_index ≤ 0 then .error "current_index must be positive"
  else if borrow_type = "variable" then
    .ok (-(initial_amount * (current_index / entry_index)))
  else if borrow_type = "stable" then
    .ok (-(initial_amount * (current_index / entry_index)))
  else .error "Invalid borrow_type"

/-- The `current_prices` dict of `calculate_position_value`: a Python
dict whose keys are either `(asset, position_type)` tuples or bare asset
strings.  The two key populations never collide, so the dict splits into
two association lists. -/
structure PriceMap where
  composite : List ((String × String) × ℚ)
  plain : List (String × ℚ)

/-- `current_prices.get((asset, position_type))`. -/
def PriceMap.getComposite (m : PriceMap) (k : String × String) : Option ℚ :=
  (m.composite.find? (fun kv => kv.1 = k)).map (·.2)

/-- `current_prices.get(asset)`. -/
def PriceMap.getPlain (m : PriceMap) (k : String) : Option ℚ :=
  (m.plain.find? (fun kv => kv.1 = k)).map (·.2)

/-- The per-asset `{liquidity_index, variable_borrow_index}` dict of
`current_indices`; either key may be absent. -/
structure LendingIndices where
  liquidity_index : Option ℚ := none
  variable_borrow_index : Option ℚ := none

/-- `current_indices.get(asset, {})`. -/
def lookupIndices (m : List (String × LendingIndices)) (asset : String) :
    LendingIndices :=
  ((m.find? (fun kv => kv.1 = asset)).map (·.2)).getD {}

/-- `calculate_position_value` from `analysis/valuation.py`: lending
positions are valued through the index maps; spot/futures positions look
the price up first under the composite `(asset, position_type)` key and
fall back to the bare asset key; a missing price or an unknown position
type raises `ValueError`. -/
def calculate_position_value (position : Position) (current_prices : PriceMap)
    (current_indices : Option (List (String × LendingIndices))) :
    Except String ℚ :=
  let asset := position.asset
  let quantity := position.quantity
  let position_type := position.position_type
  let entry_price := position.entry_price
  let leverage := position.leverage
  if position_type = "lending_supply" ∨ position_type = "lending_borrow" then
    match current_indices with
    | none => .error "Lending positions require current_indices parameter"
    | some indicesMap =>
      let indices := lookupIndices indicesMap asset
      match position.entry_index with
      | none => .error "Position missing entry_index"
      | some entry_index =>
        if position_type = "lending_supply" then
          match indices.liquidity_index with
          | none => .error "No liquidity_index available"
          | some current_index =>
              calculate_lending_supply_value quantity entry_index current_index
        else
          match indices.variable_borrow_index with
          | none => .error "No variable_borrow_index available"
          | some current_index =>
              calculate_lending_borrow_value quantity entry_index current_index
                position.borrow_type
  else
    let current_price :=
      match current_prices.getComposite (asset, position_type) with
      | some p => some p
      | none => current_prices.getPlain asset
    match current_price with
    | none => .error "No current price available"
    | some p =>
      if position_type = "spot" then .ok (calculate_spot_value quantity p)
      else if position_type = "futures_long" then
        .ok (calculate_futures_long_value quantity entry_price p leverage)
      else if position_type = "futures_short" then
        .ok (calculate_futures_short_value quantity entry_price p leverage)
      else .error "Unknown position type"

/-- The value a spot/futures position takes at price `p` (the dispatch
of `calculate_position_value` after the price lookup succeeded). -/
def spotFuturesValue (position : Position) (p : ℚ) : ℚ :=
  if position.position_type = "spot" then
    calculate_spot_value position.quantity p
  else if position.position_type = "futures_long" then
    calculate_futures_long_value position.quantity position.entry_price p
      position.leverage
  else
    calculate_futures_short_value position.quantity position.entry_price p
      position.leverage

/-- `dict.get(key, default)` over an association list. -/
def lookupD (m : List (String × ℚ)) (k : String) (d : ℚ) : ℚ :=
  ((m.find? (fun kv => kv.1 = k)).map (·.2)).getD d

/-- Result of `calculate_health_factor` (`float("inf")` on no debt). -/
inductive HealthFactor
  | infinite
  | value (hf : ℚ)
deriving Repr, DecidableEq

/-- `calculate_health_factor` from `analysis/valuation.py`: positions
that are not `lending_supply` are skipped and an asset missing from the
`liquidation_thresholds` dict gets the default threshold `0.50`. -/
def calculate_health_factor (positions : List Position) (total_borrowed : ℚ)
    (liquidation_thresholds : List (String × ℚ)) : HealthFactor :=
  if total_borrowed ≤ 0 then .infinite
  else
    let weighted_collateral := positions.foldl
      (fun acc pos =>
        if pos.position_type ≠ "lending_supply" then acc
        else acc + pos.value * lookupD liquidation_thresholds pos.asset (1/2))
      0
    if weighted_collateral ≤ 0 then .value 0
    else .value (weighted_collateral / total_borrowed)

/-- The `weighted_max_ltv` accumulation of `_calculate_lending_metrics`
in `analysis/riskprofile.py`: a collateral-value-weighted average of the
per-asset max-LTV constants, defaulting to `0.75` for unknown assets;
zero when there is no collateral. -/
def weighted_max_ltv (supply_positions : List Position)
    (total_collateral_value : ℚ) (max_ltv_values : List (String × ℚ)) : ℚ :=
  if 0 < total_collateral_value then
    supply_positions.foldl
      (fun acc pos =>
        acc + pos.value / total_collateral_value
          * lookupD max_ltv_values pos.asset (3/4))
      0
  else 0

/-- The `max_safe_borrow` entry of `_calculate_lending_metrics`
(clamped to be non-negative). -/
def max_safe_borrow (supply_positions : List Position)
    (total_collateral_value total_debt_value : ℚ)
    (max_ltv_values : List (String × ℚ)) : ℚ :=
  max 0 (total_collateral_value
    * weighted_max_ltv supply_positions total_collateral_value max_ltv_values
    - total_debt_value)

theorem lookupD_cons_fresh (m : List (String × ℚ)) (a : String) (d : ℚ)
    (ha : a ∉ m.map Prod.fst) (k : String) :
    lookupD ((a, d) :: m) k d = lookupD m k d := by
  by_cases hk : k = a
  · subst hk
    have hfind : m.find? (fun kv => kv.1 = k) = none := by
      rw [List.find?_eq_none]
      intro kv hkv hdec
      exact ha (List.mem_map.2 ⟨kv, hkv, by
        simpa using of_decide_eq_true hdec⟩)
    simp [lookupD, List.find?, hfind]
  · have : (decide ((a, d).1 = k)) = false := by
      simp [eq_comm]
      exact fun h => hk h.symm
    simp [lookupD, List.find?, this]

end Portfolio

namespace RiskProfile

open Portfolio

/-- The `data_availability_warning` computation of
`calculate_risk_profile` in `analysis/riskprofile.py`: a warning is
attached when fewer than 30 actual days of data are available, and the
alignment warnings are concatenated onto it.  The positions and the
requested `lookback_days` are in scope in the source but are never
consulted for the warning — there is no futures-specific branch. -/
def engine_data_warning (positions : List Position) (lookback_days : ℕ)
    (actual_days : ℕ) (alignment_warnings : List String) : Option String :=
  let _ := positions
  let _ := lookback_days
  let data_warning : Option String :=
    if actual_days < 30 then
      some (s!"Warning: Only {actual_days} days of data available " ++
        "(recommended: 30+). Risk metrics may be unreliable.")
    else none
  if alignment_warnings ≠ [] then
    let warning_msg := String.intercalate "; " alignment_warnings
    match data_warning with
    | some w => some (w ++ " | " ++ warning_msg)
    | none => some warning_msg
  else data_warning

/-- Whether any position is a futures position (`has_futures` in the
agent tool `calculate_risk_profile` of `agent/tools/risk_profile.py`). -/
def has_futures (positions : List Position) : Bool :=
  positions.any (fun p =>
    p.position_type = "futures_long" ∨ p.position_type = "futures_short")

/-- The futures/lookback gate of the agent tool
`calculate_risk_profile` (`agent/tools/risk_profile.py`): when the
portfolio contains futures positions and `lookback_days > 30` the tool
returns an error object — without calling the backend, hence without
any risk metrics.  `none` means the request proceeds to the backend. -/
def futures_lookback_gate (positions : List Position) (lookback_days : ℕ) :
    Option String :=
  if has_futures positions ∧ lookback_days > 30 then
    some (s!"Portfolio contains futures positions but lookback_days={lookback_days} "
      ++ "exceeds data availability")
  else none

/-- The concrete futures position of the C5 counterexample. -/
def futuresPos : Position :=
  { asset := "ETH", quantity := 10, position_type := "futures_long",
    entry_price := 2000, leverage := 5 }

end RiskProfile

/-- C5 counterexample: a portfolio holding one futures position with
`lookback_days = 60 > 30` whose (spot-derived) actual coverage is 60
days and whose alignment produced no warnings receives **no** warning at
all from the engine — the claimed funding/mark-coverage warning does not
exist in the engine. -/
theorem futures_lookback_warning_counterexample :
    RiskProfile.has_futures [RiskProfile.futuresPos] = true ∧
      60 > 30 ∧
      RiskProfile.engine_data_warning [RiskProfile.futuresPos] 60 60 []
        = none := by
  refine ⟨by decide, by decide, rfl⟩

/-- C5 (amended): the engine's `data_availability_warning` never depends
on the positions or on the requested `lookback_days` (so no
futures-specific warning is ever emitted there); the futures +
`lookback_days > 30` combination is instead rejected by the agent tool,
which returns an error — and no metrics — before the engine runs. -/
theorem futures_lookback_handling
    (positions positions' : List Portfolio.Position)
    (lookback lookback' actual : ℕ) (ws : List String) :
    RiskProfile.engine_data_warning positions lookback actual ws
        = RiskProfile.engine_data_warning positions' lookback' actual ws ∧
      (RiskProfile.has_futures positions = true → lookback > 30 →
        ∃ msg, RiskProfile.futures_lookback_gate positions lookback
          = some msg) := by
  constructor
  · rfl
  · intro hf hl
    unfold RiskProfile.futures_lookback_gate
    rw [if_pos (show _ ∧ _ from ⟨hf, hl⟩)]
    exact ⟨_, rfl⟩

theorem futures_lookback_handling_witness :
    RiskProfile.engine_data_warning [RiskProfile.futuresPos] 60 60 []
        = RiskProfile.engine_data_warning [] 7 60 [] ∧
      ∃ msg, RiskProfile.futures_lookback_gate [RiskProfile.futuresPos] 60
        = some msg := by
  have h := futures_lookback_handling [RiskProfile.futuresPos] [] 60 7 60 []
  exact ⟨h.1, h.2 (by decide) (by decide)⟩

namespace DataService

/-- `(max − min).days` of the timestamps of one asset's cleaned spot
rows, as computed in `fetch_portfolio_data` (timestamps in hours,
truncating division by 24 mirrors `timedelta.days`). -/
def daysSpan (rows : List (ℕ × ℚ)) : ℕ :=
  let ts := rows.map Prod.fst
  (ts.foldl max 0 - ts.foldl min (ts.headD 0)) / 24

/-- The `actual_days_available` aggregation of `fetch_portfolio_data`
(`analysis/data_service.py`, lines 161–170): `min_days` starts at
`lookback_days` and is lowered by the day-span of each asset **with a
non-empty spot history**; the futures and lending histories fetched by
the same function never participate. -/
def fetch_actual_days (assets : List String)
    (spot : String → List (ℕ × ℚ))
    (futures : String → List (ℕ × ℚ × ℚ))
    (lending : String → List (ℕ × ℚ))
    (lookback_days : ℕ) : ℕ :=
  let _ := futures
  let _ := lending
  let present := assets.filter (fun a => spot a ≠ [])
  present.foldl (fun m a => min m (daysSpan (spot a))) lookback_days

theorem foldl_min_le_seed (l : List ℕ) (s : ℕ) : l.foldl min s ≤ s := by
  induction l generalizing s with
  | nil => exact le_refl s
  | cons x xs ih =>
      exact le_trans (ih (min s x)) (min_le_left s x)

theorem foldl_min_le_mem (l : List ℕ) (s x : ℕ) (hx : x ∈ l) :
    l.foldl min s ≤ x := by
  induction l generalizing s with
  | nil => cases hx
  | cons y ys ih =>
      rcases List.mem_cons.1 hx with h | h
      · subst h
        exact le_trans (foldl_min_le_seed ys (min s x)) (min_le_right s x)
      · exact ih (min s y) h

theorem foldl_min_eq_seed_or_mem (l : List ℕ) (s : ℕ) :
    l.foldl min s = s ∨ l.foldl min s ∈ l := by
  induction l generalizing s with
  | nil => exact Or.inl rfl
  | cons x xs ih =>
      rcases ih (min s x) with h | h
      · rcases min_cases s x with ⟨hm, _⟩ | ⟨hm, _⟩
        · exact Or.inl (by rw [List.foldl_cons, h, hm])
        · exact Or.inr (by rw [List.foldl_cons, h, hm]; exact List.mem_cons_self x xs)
      · exact Or.inr (List.mem_cons_of_mem x h)

end DataService

/-- C6 counterexample: an asset whose fetched history is futures-only
(spanning 5 days, with no spot rows) is ignored by the aggregation:
`actual_days_available` comes back as the full `lookback_days = 30`,
not as the 5-day minimum over each asset's fetched history that the
claim requires. -/
theorem actual_days_counterexample :
    DataService.fetch_actual_days ["A"] (fun _ => [])
        (fun _ => [(0, 100, 0), (120, 100, 0)]) (fun _ => []) 30 = 30 ∧
      DataService.daysSpan [(0, (100 : ℚ)), (120, 100)] = 5 ∧
      (30 : ℕ) ≠ 5 := by
  refine ⟨rfl, by decide, by decide⟩

/-- C6 (amended): `actual_days_available` equals the minimum of
`lookback_days` and the day-spans of the spot histories of the assets
whose spot history is non-empty: it is at most `lookback_days`, at most
each such asset's spot span, and is either `lookback_days` itself or
one of those spans.  Assets with only futures or lending history do not
participate. -/
theorem actual_days_characterization (assets : List String)
    (spot : String → List (ℕ × ℚ)) (futures : String → List (ℕ × ℚ × ℚ))
    (lending : String → List (ℕ × ℚ)) (lookback_days : ℕ) :
    DataService.fetch_actual_days assets spot futures lending lookback_days
        ≤ lookback_days ∧
      (∀ a ∈ assets.filter (fun a => spot a ≠ []),
        DataService.fetch_actual_days assets spot futures lending lookback_days
          ≤ DataService.daysSpan (spot a)) ∧
      (DataService.fetch_actual_days assets spot futures lending lookback_days
          = lookback_days ∨
        ∃ a ∈ assets.filter (fun a => spot a ≠ []),
          DataService.fetch_actual_days assets spot futures lending
            lookback_days = DataService.daysSpan (spot a)) := by
  have hrw : DataService.fetch_actual_days assets spot futures lending
      lookback_days =
      ((assets.filter (fun a => spot a ≠ [])).map
        (fun a => DataService.daysSpan (spot a))).foldl min lookback_days := by
    simp [DataService.fetch_actual_days, List.foldl_map]
  refine ⟨?_, ?_, ?_⟩
  · rw [hrw]
    exact DataService.foldl_min_le_seed _ _
  · intro a ha
    rw [hrw]
    exact DataService.foldl_min_le_mem _ _ _
      (List.mem_map.2 ⟨a, ha, rfl⟩)
  · rw [hrw]
    rcases DataService.foldl_min_eq_seed_or_mem
      ((assets.filter (fun a => spot a ≠ [])).map
        (fun a => DataService.daysSpan (spot a))) lookback_days with h | h
    · exact Or.inl h
    · rcases List.mem_map.1 h with ⟨a, ha, hval⟩
      exact Or.inr ⟨a, ha, hval.symm⟩

namespace Metrics

/-- Linear interpolation of `numpy.quantile` at fractional position `h`
into the sorted sample `s`: with `i = ⌊h⌋`, the value is
`s[i] + (h − i)·(s[min(i+1, n−1)] − s[i])`. -/
def interpAt (s : List ℚ) (h : ℚ) : ℚ :=
  let i : ℕ := (Int.floor h).toNat
  let lo := s.getD i 0
  let hi := s.getD (min (i + 1) (s.length - 1)) 0
  lo + (h - (i : ℚ)) * (hi - lo)

/-- `np.quantile(xs, q)` with the default linear interpolation: sort
the sample and interpolate at position `q·(n−1)`. -/
def npQuantile (xs : List ℚ) (q : ℚ) : ℚ :=
  let s := List.insertionSort (· ≤ ·) xs
  if s.length = 0 then 0
  else interpAt s (q * ((s.length : ℚ) - 1))

/-- `calculate_var_historical` from `analysis/metrics.py`: `0.0` on an
empty return sample, else `portfolio_value · quantile(returns, 1 − α)`. -/
def calculate_var_historical
    (returns : List ℚ) (confidence_level portfolio_value : ℚ) : ℚ :=
  if returns = [] then 0
  else portfolio_value * npQuantile returns (1 - confidence_level)

theorem getD_mono (s : List ℚ) (hs : s.Sorted (· ≤ ·)) {i j : ℕ}
    (hij : i ≤ j) (hj : j < s.length) : s.getD i 0 ≤ s.getD j 0 := by
  have hi : i < s.length := lt_of_le_of_lt hij hj
  rw [List.getD_eq_get s 0 hi, List.getD_eq_get s 0 hj]
  exact hs.rel_get_of_le hij

theorem interpAt_mono (s : List ℚ) (hs : s.Sorted (· ≤ ·))
    (hlen : 1 ≤ s.length) (h₁ h₂ : ℚ) (h0 : 0 ≤ h₁) (h12 : h₁ ≤ h₂)
    (hup : h₂ ≤ (s.length : ℚ) - 1) : interpAt s h₁ ≤ interpAt s h₂ := by
  have h0' : 0 ≤ h₂ := le_trans h0 h12
  have hf1 : (0 : ℤ) ≤ Int.floor h₁ := Int.floor_nonneg.2 h0
  have hf2 : (0 : ℤ) ≤ Int.floor h₂ := Int.floor_nonneg.2 h0'
  have hcast1 : (((Int.floor h₁).toNat : ℤ) : ℚ) = ((Int.floor h₁ : ℤ) : ℚ) := by
    rw [Int.toNat_of_nonneg hf1]
  have hcast2 : (((Int.floor h₂).toNat : ℤ) : ℚ) = ((Int.floor h₂ : ℤ) : ℚ) := by
    rw [Int.toNat_of_nonneg hf2]
  have hA1 : (((Int.floor h₁).toNat : ℕ) : ℚ) ≤ h₁ := by
    rw [show (((Int.floor h₁).toNat : ℕ) : ℚ) = (((Int.floor h₁).toNat : ℤ) : ℚ)
        by push_cast; ring, hcast1]
    exact Int.floor_le h₁
  have hA2 : (((Int.floor h₂).toNat : ℕ) : ℚ) ≤ h₂ := by
    rw [show (((Int.floor h₂).toNat : ℕ) : ℚ) = (((Int.floor h₂).toNat : ℤ) : ℚ)
        by push_cast; ring, hcast2]
    exact Int.floor_le h₂
  have hB1 : h₁ < (((Int.floor h₁).toNat : ℕ) : ℚ) + 1 := by
    rw [show (((Int.floor h₁).toNat : ℕ) : ℚ) = (((Int.floor h₁).toNat : ℤ) : ℚ)
        by push_cast; ring, hcast1]
    exact Int.lt_floor_add_one h₁
  have hD : (Int.floor h₁).toNat ≤ (Int.floor h₂).toNat :=
    Int.toNat_le_toNat (Int.floor_mono h12)
  have hE : (Int.floor h₂).toNat ≤ s.length - 1 := by
    have hna : ((s.length - 1 : ℕ) : ℚ) = (s.length : ℚ) - 1 := by
      push_cast [Nat.cast_sub hlen]
      ring
    have : Int.floor h₂ ≤ ((s.length - 1 : ℕ) : ℤ) := by
      rw [show ((s.length - 1 : ℕ) : ℤ) = Int.floor (((s.length - 1 : ℕ) : ℚ))
          by rw [Int.floor_natCast]]
      exact Int.floor_mono (by rw [hna]; exact hup)
    exact Int.toNat_le.2 this
  have hE1 : (Int.floor h₁).toNat ≤ s.length - 1 := le_trans hD hE
  have hn2 : (Int.floor h₂).toNat < s.length :=
    lt_of_le_of_lt hE (Nat.sub_lt (lt_of_lt_of_le Nat.zero_lt_one hlen)
      Nat.zero_lt_one)
  have hn1 : (Int.floor h₁).toNat < s.length := lt_of_le_of_lt hD hn2
  have hmin1lt : min ((Int.floor h₁).toNat + 1) (s.length - 1) < s.length :=
    lt_of_le_of_lt (min_le_right _ _)
      (Nat.sub_lt (lt_of_lt_of_le Nat.zero_lt_one hlen) Nat.zero_lt_one)
  have hmin2lt : min ((Int.floor h₂).toNat + 1) (s.length - 1) < s.length :=
    lt_of_le_of_lt (min_le_right _ _)
      (Nat.sub_lt (lt_of_lt_of_le Nat.zero_lt_one hlen) Nat.zero_lt_one)
  have hilo1 : (Int.floor h₁).toNat
      ≤ min ((Int.floor h₁).toNat + 1) (s.length - 1) :=
    le_min (Nat.le_succ _) hE1
  have hilo2 : (Int.floor h₂).toNat
      ≤ min ((Int.floor h₂).toNat + 1) (s.length - 1) :=
    le_min (Nat.le_succ _) hE
  have hgap1 : s.getD (Int.floor h₁).toNat 0
      ≤ s.getD (min ((Int.floor h₁).toNat + 1) (s.length - 1)) 0 :=
    getD_mono s hs hilo1 hmin1lt
  have hgap2 : s.getD (Int.floor h₂).toNat 0
      ≤ s.getD (min ((Int.floor h₂).toNat + 1) (s.length - 1)) 0 :=
    getD_mono s hs hilo2 hmin2lt
  by_cases heq : (Int.floor h₁).toNat = (Int.floor h₂).toNat
  · simp only [interpAt, heq]
    nlinarith [hgap2, h12]
  · have hlt : (Int.floor h₁).toNat < (Int.floor h₂).toNat :=
      lt_of_le_of_ne hD heq
    have step1 : interpAt s h₁
        ≤ s.getD (min ((Int.floor h₁).toNat + 1) (s.length - 1)) 0 := by
      simp only [interpAt]
      nlinarith [hgap1, hA1, hB1]
    have step2 : s.getD (min ((Int.floor h₁).toNat + 1) (s.length - 1)) 0
        ≤ s.getD (Int.floor h₂).toNat 0 :=
      getD_mono s hs (le_trans (min_le_left _ _) hlt) hn2
    have step3 : s.getD (Int.floor h₂).toNat 0 ≤ interpAt s h₂ := by
      simp only [interpAt]
      nlinarith [hgap2, hA2]
    exact le_trans step1 (le_trans step2 step3)

theorem npQuantile_mono (xs : List ℚ) (hne : xs ≠ []) (q₁ q₂ : ℚ)
    (hq0 : 0 ≤ q₁) (hq : q₁ ≤ q₂) (hq1 : q₂ ≤ 1) :
    npQuantile xs q₁ ≤ npQuantile xs q₂ := by
  have hsort : (List.insertionSort (· ≤ ·) xs).Sorted (· ≤ ·) :=
    List.sorted_insertionSort (· ≤ ·) xs
  have hlen : (List.insertionSort (· ≤ ·) xs).length = xs.length :=
    (List.perm_insertionSort (· ≤ ·) xs).length_eq
  have hpos : 1 ≤ (List.insertionSort (· ≤ ·) xs).length := by
    rw [hlen]
    exact Nat.succ_le_of_lt (List.length_pos.2 hne)
  have hnz : ¬ (List.insertionSort (· ≤ ·) xs).length = 0 := by omega
  have hnn : (0 : ℚ) ≤ ((List.insertionSort (· ≤ ·) xs).length : ℚ) - 1 := by
    have : (1 : ℚ) ≤ ((List.insertionSort (· ≤ ·) xs).length : ℚ) := by
      exact_mod_cast hpos
    linarith
  simp only [npQuantile, if_neg hnz]
  exact interpAt_mono _ hsort hpos _ _ (mul_nonneg hq0 hnn)
    (mul_le_mul_of_nonneg_right hq hnn)
    (by nlinarith [hnn, hq1])

end Metrics

/-- C2 counterexample: the sample `[0.01, 0.02]` (all-positive returns,
a perfectly legitimate "non-trivial" sample) with portfolio value 100
gives `VaR_95 = 1.05 > 0`, refuting the claimed unconditional ordering
`VaR_99 ≤ VaR_95 ≤ 0`. -/
theorem var_ordering_counterexample :
    Metrics.calculate_var_historical [1/100, 1/50] (95/100) 100 = 21/20 ∧
      ¬ Metrics.calculate_var_historical [1/100, 1/50] (95/100) 100 ≤ 0 := by
  have hne : ([1/100, 1/50] : List ℚ) ≠ [] := by simp
  constructor <;>
    norm_num [Metrics.calculate_var_historical, Metrics.npQuantile,
      Metrics.interpAt, List.insertionSort, List.orderedInsert, hne]

/-- C2 (amended): for a non-empty return sample and a non-negative
current portfolio value, `VaR_α = V_now · quantile(returns, 1 − α)`,
the ordering `VaR_99 ≤ VaR_95` always holds, and `VaR_95 ≤ 0` holds
whenever the empirical 5 %-quantile of the returns is ≤ 0 (which an
all-positive sample violates). -/
theorem var_historical_correct (returns : List ℚ) (V : ℚ)
    (hne : returns ≠ []) (hV : 0 ≤ V) :
    (∀ α : ℚ, Metrics.calculate_var_historical returns α V
        = V * Metrics.npQuantile returns (1 - α)) ∧
      Metrics.calculate_var_historical returns (99/100) V
        ≤ Metrics.calculate_var_historical returns (95/100) V ∧
      (Metrics.npQuantile returns (1/20) ≤ 0 →
        Metrics.calculate_var_historical returns (95/100) V ≤ 0) := by
  refine ⟨fun α => by simp [Metrics.calculate_var_historical, hne], ?_, ?_⟩
  · simp only [Metrics.calculate_var_historical, if_neg hne]
    have hmono := Metrics.npQuantile_mono returns hne (1 - 99/100) (1 - 95/100)
      (by norm_num) (by norm_num) (by norm_num)
    exact mul_le_mul_of_nonneg_left hmono hV
  · intro hq
    simp only [Metrics.calculate_var_historical, if_neg hne]
    have h520 : (1 : ℚ) - 95/100 = 1/20 := by norm_num
    rw [h520]
    exact mul_nonpos_iff.2 (Or.inl ⟨hV, hq⟩)

theorem var_historical_correct_witness :
    Metrics.calculate_var_historical [-1/50, 1/100, 3/100] (99/100) 100
        ≤ Metrics.calculate_var_historical [-1/50, 1/100, 3/100] (95/100) 100 ∧
      Metrics.calculate_var_historical [-1/50, 1/100, 3/100] (95/100) 100
        ≤ 0 := by
  have h := var_historical_correct [-1/50, 1/100, 3/100] 100
    (by simp) (by norm_num)
  refine ⟨h.2.1, h.2.2 ?_⟩
  norm_num [Metrics.npQuantile, Metrics.interpAt,
    List.insertionSort, List.orderedInsert]

namespace Align

/-- One daily row of a resampled lending frame: each metric column may
be missing (`NaN`) on any given row. -/
structure LendingRow where
  liquidity_index : Option ℚ := none
  variable_borrow_index : Option ℚ := none
  supply_rate : Option ℚ := none
  variable_borrow_rate : Option ℚ := none
  stable_borrow_rate : Option ℚ := none
deriving Repr, DecidableEq

/-- A per-asset daily lending frame: its rows, plus which of the five
metric columns the frame carries (`col in df.columns` in the source). -/
structure LendingFrame where
  rows : List (ℕ × LendingRow) := []
  has_liquidity_index : Bool := false
  has_variable_borrow_index : Bool := false
  has_supply_rate : Bool := false
  has_variable_borrow_rate : Bool := false
  has_stable_borrow_rate : Bool := false
deriving Repr, DecidableEq

/-- The value a left-merge onto the timeline places at day `d`: the
value of the frame's row for `d`, which may itself be missing.  -/
def lookupDay (rows : List (ℕ × Option ℚ)) (d : ℕ) : Option ℚ :=
  ((rows.find? (fun r => r.1 = d)).map (·.2)).join

/-- `Series.ffill`, carrying the last seen value forward. -/
def ffillAux : Option ℚ → List (Option ℚ) → List (Option ℚ)
  | _, [] => []
  | last, x :: xs =>
      let cur := match x with
        | some v => some v
        | none => last
      cur :: ffillAux cur xs

/-- `Series.ffill()`. -/
def ffill (l : List (Option ℚ)) : List (Option ℚ) := ffillAux none l

/-- `Series.bfill()`: a forward fill run backwards. -/
def bfill (l : List (Option ℚ)) : List (Option ℚ) :=
  (ffillAux none l.reverse).reverse

/-- `Series.fillna(0.0)`. -/
def fillZero (l : List (Option ℚ)) : List (Option ℚ) :=
  l.map (fun x => some (x.getD 0))

/-- Whether a column still has a missing entry (`isna().any()`). -/
def anyNone (l : List (Option ℚ)) : Bool := l.any (fun x => x.isNone)

/-- The fill policy applied to price and index columns in
`align_time_series`: forward-fill, and backward-fill only when missing
values remain (leading gaps). -/
def priceColumn (timeline : List ℕ) (rows : List (ℕ × Option ℚ)) :
    List (Option ℚ) :=
  if anyNone (ffill (timeline.map (lookupDay rows))) then
    bfill (ffill (timeline.map (lookupDay rows)))
  else ffill (timeline.map (lookupDay rows))

/-- The fill policy applied to the funding-rate and rate columns in
`align_time_series`: forward-fill, then fill what remains with `0`. -/
def rateColumn (timeline : List ℕ) (rows : List (ℕ × Option ℚ)) :
    List (Option ℚ) :=
  if anyNone (ffill (timeline.map (lookupDay rows))) then
    fillZero (ffill (timeline.map (lookupDay rows)))
  else ffill (timeline.map (lookupDay rows))

/-- The mark-price series of a futures frame. -/
def markSeries (rows : List (ℕ × Option ℚ × Option ℚ)) :
    List (ℕ × Option ℚ) :=
  rows.map (fun r => (r.1, r.2.1))

/-- The funding-rate series of a futures frame. -/
def fundingSeries (rows : List (ℕ × Option ℚ × Option ℚ)) :
    List (ℕ × Option ℚ) :=
  rows.map (fun r => (r.1, r.2.2))

/-- The series of one lending column. -/
def lendSeries (rows : List (ℕ × LendingRow)) (f : LendingRow → Option ℚ) :
    List (ℕ × Option ℚ) :=
  rows.map (fun r => (r.1, f r.2))

/-- The aligned columns contributed by one asset's lending frame, in
source order; absent columns are skipped. -/
def lendingCols (timeline : List ℕ) (a : String) (lf : LendingFrame) :
    List (String × List (Option ℚ)) :=
  (if lf.has_liquidity_index then
    [(a ++ "_liquidity_index",
      priceColumn timeline (lendSeries lf.rows (·.liquidity_index)))]
  else []) ++
  (if lf.has_variable_borrow_index then
    [(a ++ "_variable_borrow_index",
      priceColumn timeline (lendSeries lf.rows (·.variable_borrow_index)))]
  else []) ++
  (if lf.has_supply_rate then
    [(a ++ "_supply_rate",
      rateColumn timeline (lendSeries lf.rows (·.supply_rate)))]
  else []) ++
  (if lf.has_variable_borrow_rate then
    [(a ++ "_variable_borrow_rate",
      rateColumn timeline (lendSeries lf.rows (·.variable_borrow_rate)))]
  else []) ++
  (if lf.has_stable_borrow_rate then
    [(a ++ "_stable_borrow_rate",
      rateColumn timeline (lendSeries lf.rows (·.stable_borrow_rate)))]
  else [])

/-- All timestamps of all frames (`all_timestamps` in the source),
as a list of day indices. -/
def allDays (spot : List (String × List (ℕ × Option ℚ)))
    (futures : List (String × List (ℕ × Option ℚ × Option ℚ)))
    (lending : List (String × LendingFrame)) : List ℕ :=
  (spot.map (fun af => af.2.map Prod.fst)).flatten ++
    (futures.map (fun af => af.2.map Prod.fst)).flatten ++
    (lending.map (fun af => af.2.rows.map Prod.fst)).flatten

/-- Smallest element of a list of naturals (seeded with the head). -/
def minList (l : List ℕ) : ℕ := l.foldl min (l.headD 0)

/-- Largest element of a list of naturals. -/
def maxList (l : List ℕ) : ℕ := l.foldl max 0

/-- `align_time_series` from `analysis/data_service.py`: raise when no
frame has any row; otherwise build the daily timeline from the earliest
to the latest day seen anywhere, left-merge every per-asset column onto
it and fill it per column type (prices and indices: forward- then
backward-fill; funding and other rates: forward-fill then zero-fill).
Columns appear in source order: spot, then mark/funding per futures
asset, then the per-asset lending columns. -/
def align_time_series (spot : List (String × List (ℕ × Option ℚ)))
    (futures : List (String × List (ℕ × Option ℚ × Option ℚ)))
    (lending : List (String × LendingFrame)) :
    Except String (List ℕ × List (String × List (Option ℚ))) :=
  let days := allDays spot futures lending
  if days = [] then .error "No data available for any asset"
  else
    let lo := minList days
    let hi := maxList days
    let timeline := List.range' lo (hi + 1 - lo)
    let spotCols := spot.map (fun af =>
      (af.1 ++ "_spot", priceColumn timeline af.2))
    let futCols := (futures.map (fun af =>
      [(af.1 ++ "_futures_mark", priceColumn timeline (markSeries af.2)),
       (af.1 ++ "_funding", rateColumn timeline (fundingSeries af.2))])).flatten
    let lendCols := (lending.map (fun af =>
      lendingCols timeline af.1 af.2)).flatten
    .ok (timeline, spotCols ++ futCols ++ lendCols)

/-- Every entry of the column is present (no `NaN` remains). -/
def allSome (l : List (Option ℚ)) : Prop := ∀ x ∈ l, x.isSome = true

theorem ffillAux_length (last : Option ℚ) (l : List (Option ℚ)) :
    (ffillAux last l).length = l.length := by
  induction l generalizing last with
  | nil => rfl
  | cons x xs ih => simp [ffillAux, ih]

theorem ffill_length (l : List (Option ℚ)) : (ffill l).length = l.length :=
  ffillAux_length none l

theorem bfill_length (l : List (Option ℚ)) : (bfill l).length = l.length := by
  simp [bfill, ffillAux_length]

theorem fillZero_length (l : List (Option ℚ)) :
    (fillZero l).length = l.length := by
  simp [fillZero]

theorem priceColumn_length (timeline : List ℕ) (rows : List (ℕ × Option ℚ)) :
    (priceColumn timeline rows).length = timeline.length := by
  unfold priceColumn
  split <;> simp [bfill_length, ffill_length]

theorem rateColumn_length (timeline : List ℕ) (rows : List (ℕ × Option ℚ)) :
    (rateColumn timeline rows).length = timeline.length := by
  unfold rateColumn
  split <;> simp [fillZero_length, ffill_length]

theorem ffillAux_allSome (v : ℚ) (l : List (Option ℚ)) :
    allSome (ffillAux (some v) l) := by
  induction l generalizing v with
  | nil => intro x hx; cases hx
  | cons x xs ih =>
      intro y hy
      cases x with
      | some w =>
          rcases List.mem_cons.1 hy with h | h
          · subst h; rfl
          · exact ih w y h
      | none =>
          rcases List.mem_cons.1 hy with h | h
          · subst h; rfl
          · exact ih v y h

theorem ffill_split (l : List (Option ℚ)) :
    ∃ k t, ffill l = List.replicate k none ++ t ∧ allSome t ∧
      (l.any (fun x => x.isSome) = true → t ≠ []) := by
  induction l with
  | nil =>
      exact ⟨0, [], rfl, fun x hx => absurd hx (List.not_mem_nil x),
        fun h => by simp at h⟩
  | cons x xs ih =>
      cases x with
      | some v =>
          refine ⟨0, some v :: ffillAux (some v) xs, rfl, ?_, fun _ => by simp⟩
          intro y hy
          rcases List.mem_cons.1 hy with h | h
          · subst h; rfl
          · exact ffillAux_allSome v xs y h
      | none =>
          obtain ⟨k, t, heq, hall, hne⟩ := ih
          refine ⟨k + 1, t, ?_, hall, ?_⟩
          · show none :: ffillAux none xs = _
            rw [show ffillAux none xs = ffill xs from rfl, heq]
            rfl
          · intro h
            apply hne
            simpa using h

theorem allSome_reverse (l : List (Option ℚ)) (h : allSome l) :
    allSome l.reverse := fun x hx => h x (List.mem_reverse.1 hx)

theorem bfill_ffill_allSome (l : List (Option ℚ))
    (h : l.any (fun x => x.isSome) = true) : allSome (bfill (ffill l)) := by
  obtain ⟨k, t, heq, hall, hne⟩ := ffill_split l
  have ht : t ≠ [] := hne h
  rw [heq]
  unfold bfill
  apply allSome_reverse
  have hrev : (List.replicate k (none : Option ℚ) ++ t).reverse
      = t.reverse ++ List.replicate k none := by
    rw [List.reverse_append, List.reverse_replicate]
  rw [hrev]
  have htrev : t.reverse ≠ [] := by simpa using ht
  obtain ⟨y, t₂, hy⟩ := List.exists_cons_of_ne_nil htrev
  have hysome : y.isSome = true := by
    apply allSome_reverse t hall
    rw [hy]
    exact List.mem_cons_self y t₂
  obtain ⟨w, hw⟩ := Option.isSome_iff_exists.1 hysome
  rw [hy, hw]
  show allSome (some w :: ffillAux (some w) (t₂ ++ List.replicate k none))
  intro z hz
  rcases List.mem_cons.1 hz with h | h
  · subst h; rfl
  · exact ffillAux_allSome w _ z h

theorem allSome_of_not_anyNone (l : List (Option ℚ))
    (h : anyNone l = false) : allSome l := by
  intro x hx
  simp only [anyNone] at h
  have hnone := (List.any_eq_false.1 h) x hx
  cases x with
  | some v => rfl
  | none => exact absurd rfl hnone

theorem fillZero_allSome (l : List (Option ℚ)) : allSome (fillZero l) := by
  intro x hx
  rcases List.mem_map.1 hx with ⟨y, _, hy⟩
  rw [← hy]
  rfl

theorem priceColumn_allSome (timeline : List ℕ) (rows : List (ℕ × Option ℚ))
    (h : (timeline.map (lookupDay rows)).any (fun x => x.isSome) = true) :
    allSome (priceColumn timeline rows) := by
  unfold priceColumn
  by_cases hcase : anyNone (ffill (timeline.map (lookupDay rows))) = true
  · rw [if_pos hcase]
    exact bfill_ffill_allSome _ h
  · rw [if_neg hcase]
    exact allSome_of_not_anyNone _ (Bool.not_eq_true _ ▸ eq_false_of_ne_true hcase)

theorem rateColumn_allSome (timeline : List ℕ) (rows : List (ℕ × Option ℚ)) :
    allSome (rateColumn timeline rows) := by
  unfold rateColumn
  by_cases hcase : anyNone (ffill (timeline.map (lookupDay rows))) = true
  · rw [if_pos hcase]
    exact fillZero_allSome _
  · rw [if_neg hcase]
    exact allSome_of_not_anyNone _ (Bool.not_eq_true _ ▸ eq_false_of_ne_true hcase)

theorem foldl_max_ge_mem (l : List ℕ) (s x : ℕ) (hx : x ∈ l) :
    x ≤ l.foldl max s := by
  induction l generalizing s with
  | nil => cases hx
  | cons y ys ih =>
      rcases List.mem_cons.1 hx with h | h
      · subst h
        have hseed : ∀ (s' : ℕ) (t : List ℕ), s' ≤ t.foldl max s' := by
          intro s' t
          induction t generalizing s' with
          | nil => exact le_refl s'
          | cons z zs ihz =>
              exact le_trans (le_max_left s' z) (ihz (max s' z))
        exact le_trans (le_max_right s x) (hseed (max s x) ys)
      · exact ih (max s y) h

theorem minList_le_mem (l : List ℕ) (x : ℕ) (hx : x ∈ l) : minList l ≤ x :=
  DataService.foldl_min_le_mem l (l.headD 0) x hx

theorem mem_le_maxList (l : List ℕ) (x : ℕ) (hx : x ∈ l) : x ≤ maxList l :=
  foldl_max_ge_mem l 0 x hx

theorem mem_timeline (days : List ℕ) (d : ℕ) (hd : d ∈ days) :
    d ∈ List.range' (minList days) (maxList days + 1 - minList days) := by
  have h1 := minList_le_mem days d hd
  have h2 := mem_le_maxList days d hd
  rw [List.mem_range'_1]
  omega

theorem lookupDay_isSome_mem (rows : List (ℕ × Option ℚ)) (d : ℕ)
    (h : (lookupDay rows d).isSome = true) : d ∈ rows.map Prod.fst := by
  unfold lookupDay at h
  cases hf : rows.find? (fun r => r.1 = d) with
  | none => rw [hf] at h; simp at h
  | some r =>
      have hm := List.mem_of_find?_eq_some hf
      have hp : r.1 = d := by simpa using List.find?_some hf
      exact List.mem_map.2 ⟨r, hm, hp⟩

theorem column_any_isSome (days : List ℕ) (rows : List (ℕ × Option ℚ))
    (hsub : ∀ d ∈ rows.map Prod.fst, d ∈ days)
    (hEx : ∃ d, (lookupDay rows d).isSome = true) :
    ((List.range' (minList days) (maxList days + 1 - minList days)).map
      (lookupDay rows)).any (fun x => x.isSome) = true := by
  obtain ⟨d, hd⟩ := hEx
  have hmem : d ∈ days := hsub d (lookupDay_isSome_mem rows d hd)
  exact List.any_eq_true.2
    ⟨lookupDay rows d, List.mem_map.2 ⟨d, mem_timeline days d hmem, rfl⟩, hd⟩

theorem markSeries_days (rows : List (ℕ × Option ℚ × Option ℚ)) :
    (markSeries rows).map Prod.fst = rows.map Prod.fst := by
  simp [markSeries]

theorem lendSeries_days (rows : List (ℕ × LendingRow))
    (f : LendingRow → Option ℚ) :
    (lendSeries rows f).map Prod.fst = rows.map Prod.fst := by
  simp [lendSeries]

theorem spot_days_sub (spot : List (String × List (ℕ × Option ℚ)))
    (futures : List (String × List (ℕ × Option ℚ × Option ℚ)))
    (lending : List (String × LendingFrame))
    (af : String × List (ℕ × Option ℚ)) (haf : af ∈ spot) :
    ∀ d ∈ af.2.map Prod.fst, d ∈ allDays spot futures lending := by
  intro d hd
  unfold allDays
  exact List.mem_append_left _ (List.mem_append_left _
    (List.mem_flatten.2 ⟨af.2.map Prod.fst, List.mem_map.2 ⟨af, haf, rfl⟩, hd⟩))

theorem fut_days_sub (spot : List (String × List (ℕ × Option ℚ)))
    (futures : List (String × List (ℕ × Option ℚ × Option ℚ)))
    (lending : List (String × LendingFrame))
    (af : String × List (ℕ × Option ℚ × Option ℚ)) (haf : af ∈ futures) :
    ∀ d ∈ af.2.map Prod.fst, d ∈ allDays spot futures lending := by
  intro d hd
  unfold allDays
  exact List.mem_append_left _ (List.mem_append_right _
    (List.mem_flatten.2 ⟨af.2.map Prod.fst, List.mem_map.2 ⟨af, haf, rfl⟩, hd⟩))

theorem lend_days_sub (spot : List (String × List (ℕ × Option ℚ)))
    (futures : List (String × List (ℕ × Option ℚ × Option ℚ)))
    (lending : List (String × LendingFrame))
    (af : String × LendingFrame) (haf : af ∈ lending) :
    ∀ d ∈ af.2.rows.map Prod.fst, d ∈ allDays spot futures lending := by
  intro d hd
  unfold allDays
  exact List.mem_append_right _
    (List.mem_flatten.2 ⟨af.2.rows.map Prod.fst, List.mem_map.2 ⟨af, haf, rfl⟩, hd⟩)

theorem mem_if_singleton {c x : String × List (Option ℚ)} {b : Bool}
    (h : c ∈ (if b = true then [x] else [])) : b = true ∧ c = x := by
  cases b
  · simp at h
  · simpa using h

end Align

/-- C4 counterexample: a collection with one row in total (so the
alignment does not raise) in which asset `A` supplies an *empty* spot
frame: the panel still produces an `A_spot` column, and that column is
missing on every day of the timeline — forward- and backward-fill have
nothing to propagate. -/
theorem align_guarantee_counterexample :
    Align.align_time_series [("A", []), ("B", [(0, some (100 : ℚ))])] [] []
        = .ok ([0], [("A" ++ "_spot", [none]),
          ("B" ++ "_spot", [some 100])]) ∧
      ¬ Align.allSome [(none : Option ℚ)] := by
  constructor
  · rfl
  · intro h
    have := h none (List.mem_singleton.2 rfl)
    simp at this

/-- C4 (amended): whenever the alignment returns a panel (some frame
has a row), every column it produces has a present value on every day
of the timeline, **provided** each spot frame, each futures frame
(for its mark column) and each present lending index column has at
least one present value; funding-rate and rate columns need no proviso
(their zero-fill is total). -/
theorem align_guarantee
    (spot : List (String × List (ℕ × Option ℚ)))
    (futures : List (String × List (ℕ × Option ℚ × Option ℚ)))
    (lending : List (String × Align.LendingFrame))
    (timeline : List ℕ) (cols : List (String × List (Option ℚ)))
    (hok : Align.align_time_series spot futures lending
      = .ok (timeline, cols))
    (hspot : ∀ af ∈ spot, ∃ d, (Align.lookupDay af.2 d).isSome = true)
    (hmark : ∀ af ∈ futures,
      ∃ d, (Align.lookupDay (Align.markSeries af.2) d).isSome = true)
    (hliq : ∀ af ∈ lending, af.2.has_liquidity_index = true →
      ∃ d, (Align.lookupDay
        (Align.lendSeries af.2.rows (·.liquidity_index)) d).isSome = true)
    (hvbi : ∀ af ∈ lending, af.2.has_variable_borrow_index = true →
      ∃ d, (Align.lookupDay
        (Align.lendSeries af.2.rows (·.variable_borrow_index)) d).isSome
          = true) :
    ∀ c ∈ cols, c.2.length = timeline.length ∧ Align.allSome c.2 := by
  simp only [Align.align_time_series] at hok
  by_cases hdays : Align.allDays spot futures lending = []
  · rw [if_pos hdays] at hok
    cases hok
  · rw [if_neg hdays] at hok
    rw [Except.ok.injEq, Prod.mk.injEq] at hok
    obtain ⟨htl, hcl⟩ := hok
    subst htl
    subst hcl
    intro c hc
    rcases List.mem_append.1 hc with hc' | hlendc
    · rcases List.mem_append.1 hc' with hsc | hfc
      · -- spot column
        rcases List.mem_map.1 hsc with ⟨af, haf, rfl⟩
        refine ⟨Align.priceColumn_length _ _, ?_⟩
        exact Align.priceColumn_allSome _ _
          (Align.column_any_isSome _ _
            (Align.spot_days_sub spot futures lending af haf)
            (hspot af haf))
      · -- futures columns
        rcases List.mem_flatten.1 hfc with ⟨lc, hlc, hcin⟩
        rcases List.mem_map.1 hlc with ⟨af, haf, rfl⟩
        rcases List.mem_cons.1 hcin with rfl | hcin'
        · refine ⟨Align.priceColumn_length _ _, ?_⟩
          refine Align.priceColumn_allSome _ _
            (Align.column_any_isSome _ _ ?_ (hmark af haf))
          rw [Align.markSeries_days]
          exact Align.fut_days_sub spot futures lending af haf
        · rcases List.mem_singleton.1 hcin' with rfl
          exact ⟨Align.rateColumn_length _ _, Align.rateColumn_allSome _ _⟩
    · -- lending columns
      rcases List.mem_flatten.1 hlendc with ⟨lc, hlc, hcin⟩
      rcases List.mem_map.1 hlc with ⟨af, haf, rfl⟩
      unfold Align.lendingCols at hcin
      rcases List.mem_append.1 hcin with h4 | h5
      rotate_left
      · -- stable borrow rate
        rcases Align.mem_if_singleton h5 with ⟨_, rfl⟩
        exact ⟨Align.rateColumn_length _ _, Align.rateColumn_allSome _ _⟩
      rcases List.mem_append.1 h4 with h3 | h5
      rotate_left
      · rcases Align.mem_if_singleton h5 with ⟨_, rfl⟩
        exact ⟨Align.rateColumn_length _ _, Align.rateColumn_allSome _ _⟩
      rcases List.mem_append.1 h3 with h2 | h5
      rotate_left
      · rcases Align.mem_if_singleton h5 with ⟨_, rfl⟩
        exact ⟨Align.rateColumn_length _ _, Align.rateColumn_allSome _ _⟩
      rcases List.mem_append.1 h2 with h1 | h5
      rotate_left
      · -- variable borrow index
        rcases Align.mem_if_singleton h5 with ⟨hflag, rfl⟩
        refine ⟨Align.priceColumn_length _ _, ?_⟩
        refine Align.priceColumn_allSome _ _
          (Align.column_any_isSome _ _ ?_ (hvbi af haf hflag))
        rw [Align.lendSeries_days]
        exact Align.lend_days_sub spot futures lending af haf
      · -- liquidity index
        rcases Align.mem_if_singleton h1 with ⟨hflag, rfl⟩
        refine ⟨Align.priceColumn_length _ _, ?_⟩
        refine Align.priceColumn_allSome _ _
          (Align.column_any_isSome _ _ ?_ (hliq af haf hflag))
        rw [Align.lendSeries_days]
        exact Align.lend_days_sub spot futures lending af haf

theorem align_guarantee_witness :
    (Align.priceColumn (List.range' 0 1) [(0, some (100 : ℚ))]).length
        = (List.range' 0 1).length ∧
      Align.allSome (Align.priceColumn (List.range' 0 1)
        [(0, some (100 : ℚ))]) := by
  have h := align_guarantee [("BTC", [(0, some (100 : ℚ))])] [] []
    (List.range' 0 1)
    [("BTC" ++ "_spot",
      Align.priceColumn (List.range' 0 1) [(0, some (100 : ℚ))])]
    rfl
    (by
      intro af haf
      rcases List.mem_singleton.1 haf with rfl
      exact ⟨0, rfl⟩)
    (by intro af haf; cases haf)
    (by intro af haf; cases haf)
    (by intro af haf; cases haf)
  exact h _ (List.mem_singleton.2 rfl)

namespace Storage

/-- One OHLCV candle (the non-key columns of a `spot_ohlcv` row). -/
structure Candle where
  open_price : ℚ := 0
  high : ℚ := 0
  low : ℚ := 0
  close : ℚ := 0
  volume : ℚ := 0
deriving Repr, DecidableEq

/-- The `spot_ohlcv` rows of one asset: an association list from
timestamp (hours) to candle, kept sorted by timestamp — the table's
UNIQUE `(asset, timestamp)` key within one asset partition. -/
def SortedKeys (rows : List (ℕ × Candle)) : Prop :=
  rows.Chain' (fun a b => a.1 < b.1)

/-- `INSERT … ON CONFLICT (asset, timestamp) DO UPDATE` of one row. -/
def upsertRow (rows : List (ℕ × Candle)) (t : ℕ) (c : Candle) :
    List (ℕ × Candle) :=
  match rows with
  | [] => [(t, c)]
  | (t', c') :: rest =>
      if t < t' then (t, c) :: (t', c') :: rest
      else if t = t' then (t, c) :: rest
      else (t', c') :: upsertRow rest t c

/-- `upsert_ohlcv_batch` from `database.py`: `executemany` of the
per-row upsert, in batch order, within one transaction. -/
def upsert_ohlcv_batch (rows : List (ℕ × Candle))
    (candles : List (ℕ × Candle)) : List (ℕ × Candle) :=
  candles.foldl (fun s r => upsertRow s r.1 r.2) rows

/-- `SELECT … WHERE timestamp = t`. -/
def lookupRow (rows : List (ℕ × Candle)) (t : ℕ) : Option Candle :=
  (rows.find? (fun r => r.1 = t)).map (·.2)

/-- `get_earliest_timestamp` (`SELECT MIN(timestamp)`). -/
def earliestTs (rows : List (ℕ × Candle)) : Option ℕ :=
  match rows with
  | [] => none
  | r :: rest => some ((rest.map Prod.fst).foldl min r.1)

/-- `get_latest_timestamp` (`SELECT MAX(timestamp)`). -/
def latestTs (rows : List (ℕ × Candle)) : Option ℕ :=
  match rows with
  | [] => none
  | r :: rest => some ((rest.map Prod.fst).foldl max r.1)

/-- The grouping loop of `detect_gaps`: coalesce consecutive missing
grid points into `(gap_start, gap_end)` ranges. -/
def groupAux : List ℕ → ℕ → ℕ → ℕ → List (ℕ × ℕ)
  | [], _, gs, ge => [(gs, ge)]
  | m :: rest, interval, gs, ge =>
      if m - ge = interval then groupAux rest interval gs m
      else (gs, ge) :: groupAux rest interval m m

/-- `detect_gaps` from `database.py`: build the expected grid between
the earliest and latest stored timestamps, subtract the stored
timestamps, and coalesce consecutive misses. -/
def detect_gaps (rows : List (ℕ × Candle)) (interval : ℕ) :
    List (ℕ × ℕ) :=
  match earliestTs rows, latestTs rows with
  | some e, some l =>
      let expected := List.range' e ((l - e) / interval + 1) interval
      let actual := rows.map Prod.fst
      let missing := expected.filter (fun t => !actual.contains t)
      match missing with
      | [] => []
      | m :: rest => groupAux rest interval m m
  | _, _ => []

/-- `SpotFetcher.fetch_and_store_range` from `fetch/spot.py`: fetch the
range from the provider (a deterministic function modelling the
paginated adapter) and batch-upsert it; an empty response stores
nothing. -/
def fetch_and_store_range (provider : ℕ → ℕ → List (ℕ × Candle))
    (rows : List (ℕ × Candle)) (start_time end_time : ℕ) :
    List (ℕ × Candle) :=
  let klines := provider start_time end_time
  if klines = [] then rows else upsert_ohlcv_batch rows klines

/-- `SpotFetcher.fill_gaps` from `fetch/spot.py`: fetch and upsert each
detected gap range in order (12 h native interval). -/
def fill_gaps (provider : ℕ → ℕ → List (ℕ × Candle))
    (rows : List (ℕ × Candle)) : List (ℕ × Candle) :=
  (detect_gaps rows 12).foldl
    (fun s g => fetch_and_store_range provider s g.1 g.2) rows

/-- The backfill-relevant state for one asset: its stored rows plus its
`backfill_state` row. -/
structure AssetDB where
  rows : List (ℕ × Candle) := []
  completed : Bool := false
  lastFetched : Option ℕ := none
deriving Repr, DecidableEq

/-- `BackfillManager.backfill_asset` from `fetch/backfill.py` (success
path): skip when already completed and not forced; when stored coverage
already reaches `now − target_days`, just fill gaps; with partial data,
fetch the missing head range, catch up past the stored tail, then fill
gaps; with no data, fetch the full range and fill gaps.  Every
non-skipped run ends with `completed := true`. -/
def backfill_asset (provider : ℕ → ℕ → List (ℕ × Candle))
    (now target_days : ℕ) (force : Bool) (db : AssetDB) : AssetDB :=
  if !force && db.completed then db
  else
    let target_start := now - target_days * 24
    match earliestTs db.rows, latestTs db.rows with
    | some e, some l =>
        if e ≤ target_start then
          { rows := fill_gaps provider db.rows, completed := true,
            lastFetched := some l }
        else
          let rows1 := fetch_and_store_range provider db.rows target_start
            (e - 12)
          let rows2 := if l + 12 < now then
              fetch_and_store_range provider rows1 (l + 12) now
            else rows1
          let rows3 := fill_gaps provider rows2
          { rows := rows3, completed := true, lastFetched := latestTs rows3 }
    | _, _ =>
        let rows1 := fetch_and_store_range provider db.rows target_start now
        let rows2 := fill_gaps provider rows1
        { rows := rows2, completed := true, lastFetched := latestTs rows2 }

/-- The last value a batch writes for key `t` (later rows win). -/
def lastVal (batch : List (ℕ × Candle)) (t : ℕ) : Option Candle :=
  (batch.reverse.find? (fun r => r.1 = t)).map (·.2)

theorem lookup_head (t : ℕ) (c : Candle) (rest : List (ℕ × Candle)) :
    lookupRow ((t, c) :: rest) t = some c := by
  simp [lookupRow, List.find?_cons_of_pos]

theorem lookup_cons_ne (t : ℕ) (c : Candle) (rest : List (ℕ × Candle))
    (s : ℕ) (h : s ≠ t) : lookupRow ((t, c) :: rest) s = lookupRow rest s := by
  have hd : (decide ((t, c).1 = s)) = false :=
    decide_eq_false fun he => h he.symm
  simp [lookupRow, List.find?_cons, hd]

theorem lookup_none_of_all_lt (rows : List (ℕ × Candle)) (t : ℕ)
    (h : ∀ r ∈ rows, t < r.1) : lookupRow rows t = none := by
  induction rows with
  | nil => rfl
  | cons r rest ih =>
      have hne : t ≠ r.1 := Nat.ne_of_lt (h r (List.mem_cons_self r rest))
      rcases r with ⟨u, cu⟩
      rw [lookup_cons_ne u cu rest t hne]
      exact ih fun r hr => h r (List.mem_cons_of_mem _ hr)

theorem sorted_head_lt : ∀ (rest : List (ℕ × Candle)) (t : ℕ) (c : Candle),
    SortedKeys ((t, c) :: rest) → ∀ r ∈ rest, t < r.1 := by
  intro rest
  induction rest with
  | nil => intro t c _ r hr; cases hr
  | cons u rest' ih =>
      intro t c hs r hr
      have h1 : t < u.1 := (List.chain'_cons.1 hs).1
      have h2 : SortedKeys (u :: rest') := (List.chain'_cons.1 hs).2
      rcases List.mem_cons.1 hr with h | h
      · subst h; exact h1
      · exact lt_trans h1 (ih u.1 u.2 h2 r h)

theorem sorted_tail (x : ℕ × Candle) (rest : List (ℕ × Candle))
    (hs : SortedKeys (x :: rest)) : SortedKeys rest :=
  (List.chain'_cons'.1 hs).2

theorem ext_sorted : ∀ (r1 r2 : List (ℕ × Candle)), SortedKeys r1 →
    SortedKeys r2 → (∀ t, lookupRow r1 t = lookupRow r2 t) → r1 = r2 := by
  intro r1
  induction r1 with
  | nil =>
      intro r2 _ _ h
      cases r2 with
      | nil => rfl
      | cons x rest2 =>
          have := h x.1
          rcases x with ⟨u, d⟩
          rw [lookup_head u d rest2] at this
          cases this
  | cons x rest1 ih =>
      intro r2 hs1 hs2 h
      rcases x with ⟨t, c⟩
      cases r2 with
      | nil =>
          have := h t
          rw [lookup_head t c rest1] at this
          cases this
      | cons y rest2 =>
          rcases y with ⟨u, d⟩
          have htu : t = u := by
            rcases Nat.lt_trichotomy t u with hlt | heq | hgt
            · exfalso
              have hl := h t
              rw [lookup_head t c rest1] at hl
              have : lookupRow ((u, d) :: rest2) t = none := by
                apply lookup_none_of_all_lt
                intro r hr
                rcases List.mem_cons.1 hr with hh | hh
                · subst hh; exact hlt
                · exact lt_trans hlt (sorted_head_lt rest2 u d hs2 r hh)
              rw [this] at hl
              cases hl
            · exact heq
            · exfalso
              have hl := h u
              rw [lookup_head u d rest2] at hl
              have : lookupRow ((t, c) :: rest1) u = none := by
                apply lookup_none_of_all_lt
                intro r hr
                rcases List.mem_cons.1 hr with hh | hh
                · subst hh; exact hgt
                · exact lt_trans hgt (sorted_head_lt rest1 t c hs1 r hh)
              rw [this] at hl
              cases hl
          subst htu
          have hcd : c = d := by
            have := h t
            rw [lookup_head t c rest1, lookup_head t d rest2] at this
            exact Option.some.inj this
          subst hcd
          have htails : ∀ s, lookupRow rest1 s = lookupRow rest2 s := by
            intro s
            by_cases hst : s = t
            · subst hst
              rw [lookup_none_of_all_lt rest1 s (sorted_head_lt rest1 s c hs1),
                lookup_none_of_all_lt rest2 s (sorted_head_lt rest2 s c hs2)]
            · have := h s
              rw [lookup_cons_ne t c rest1 s hst,
                lookup_cons_ne t c rest2 s hst] at this
              exact this
          rw [ih rest2 (sorted_tail _ _ hs1) (sorted_tail _ _ hs2) htails]

theorem lookup_upsertRow (rows : List (ℕ × Candle)) (t : ℕ) (c : Candle)
    (s : ℕ) : lookupRow (upsertRow rows t c) s
      = if s = t then some c else lookupRow rows s := by
  induction rows with
  | nil =>
      by_cases hst : s = t
      · subst hst; simp [upsertRow, lookup_head]
      · rw [upsertRow, if_neg hst, lookup_cons_ne t c [] s hst]
  | cons r rest ih =>
      rcases r with ⟨u, cu⟩
      rw [upsertRow]
      by_cases h1 : t < u
      · rw [if_pos h1]
        by_cases hst : s = t
        · subst hst; rw [lookup_head, if_pos rfl]
        · rw [lookup_cons_ne t c _ s hst, if_neg hst]
      · rw [if_neg h1]
        by_cases h2 : t = u
        · rw [if_pos h2]
          by_cases hst : s = t
          · subst hst; rw [lookup_head, if_pos rfl]
          · rw [lookup_cons_ne t c rest s hst, if_neg hst]
            subst h2
            rw [lookup_cons_ne t cu rest s hst]
        · rw [if_neg h2]
          by_cases hsu : s = u
          · subst hsu
            have hst : s ≠ t := fun hh => h2 hh.symm
            rw [lookup_head, if_neg hst, lookup_head]
          · rw [lookup_cons_ne u cu _ s hsu, ih,
              lookup_cons_ne u cu rest s hsu]

theorem upsertRow_head? (rest : List (ℕ × Candle)) (t : ℕ) (c : Candle) :
    ∀ y ∈ (upsertRow rest t c).head?, y.1 = t ∨ ∃ z ∈ rest.head?, y.1 = z.1 := by
  cases rest with
  | nil => intro y hy; rcases Option.mem_some_iff.1 hy with rfl; exact Or.inl rfl
  | cons r rest' =>
      rcases r with ⟨u, cu⟩
      intro y hy
      rw [upsertRow] at hy
      by_cases h1 : t < u
      · rw [if_pos h1] at hy
        rcases Option.mem_some_iff.1 hy with rfl
        exact Or.inl rfl
      · rw [if_neg h1] at hy
        by_cases h2 : t = u
        · rw [if_pos h2] at hy
          rcases Option.mem_some_iff.1 hy with rfl
          exact Or.inl rfl
        · rw [if_neg h2] at hy
          rcases Option.mem_some_iff.1 hy with rfl
          exact Or.inr ⟨(u, cu), rfl, rfl⟩

theorem upsertRow_sorted (rows : List (ℕ × Candle)) (t : ℕ) (c : Candle)
    (hs : SortedKeys rows) : SortedKeys (upsertRow rows t c) := by
  induction rows with
  | nil => exact List.chain'_singleton _
  | cons r rest ih =>
      rcases r with ⟨u, cu⟩
      rw [upsertRow]
      by_cases h1 : t < u
      · rw [if_pos h1]
        exact List.chain'_cons.2 ⟨h1, hs⟩
      · rw [if_neg h1]
        by_cases h2 : t = u
        · rw [if_pos h2]
          refine List.chain'_cons'.2 ⟨?_, sorted_tail _ _ hs⟩
          intro y hy
          subst h2
          exact (List.chain'_cons'.1 hs).1 y hy
        · rw [if_neg h2]
          refine List.chain'_cons'.2 ⟨?_, ih (sorted_tail _ _ hs)⟩
          intro y hy
          have hu_t : u < t := by omega
          rcases upsertRow_head? rest t c y hy with hh | ⟨z, hz, hh⟩
          · rw [hh]; exact hu_t
          · rw [hh]
            exact (List.chain'_cons'.1 hs).1 z hz

theorem upsert_batch_sorted (rows batch : List (ℕ × Candle))
    (hs : SortedKeys rows) : SortedKeys (upsert_ohlcv_batch rows batch) := by
  induction batch generalizing rows with
  | nil => exact hs
  | cons x b ih => exact ih _ (upsertRow_sorted rows x.1 x.2 hs)

theorem lookup_upsert_batch (rows batch : List (ℕ × Candle)) (t : ℕ) :
    lookupRow (upsert_ohlcv_batch rows batch) t
      = (lastVal batch t).or (lookupRow rows t) := by
  induction batch generalizing rows with
  | nil => simp [upsert_ohlcv_batch, lastVal]
  | cons x b ih =>
      show lookupRow (upsert_ohlcv_batch (upsertRow rows x.1 x.2) b) t = _
      rw [ih, lookup_upsertRow]
      have hlast : lastVal (x :: b) t
          = (lastVal b t).or (if t = x.1 then some x.2 else none) := by
        unfold lastVal
        rw [List.reverse_cons, List.find?_append]
        cases hfind : b.reverse.find? (fun r => r.1 = t) with
        | some r => simp [hfind]
        | none =>
            simp only [hfind, Option.none_or, Option.map_none, Option.none_or]
            by_cases hx : t = x.1
            · rw [if_pos hx]
              have hd : (decide (x.1 = t)) = true := decide_eq_true hx.symm
              simp [List.find?_cons, hd]
            · rw [if_neg hx]
              have hd : (decide (x.1 = t)) = false :=
                decide_eq_false fun he => hx he.symm
              simp [List.find?_cons, hd]
      rw [hlast, Option.or_assoc]
      cases lastVal b t with
      | some r => rfl
      | none =>
          simp only [Option.none_or]
          by_cases hx : t = x.1
          · rw [if_pos hx, if_pos hx]; rfl
          · rw [if_neg hx, if_neg hx]; rfl

theorem backfill_completed (provider : ℕ → ℕ → List (ℕ × Candle))
    (now target_days : ℕ) (db : AssetDB) :
    (backfill_asset provider now target_days false db).completed = true := by
  unfold backfill_asset
  by_cases hc : db.completed = true
  · simp only [Bool.not_false, Bool.true_and, hc, if_true]
  · simp only [Bool.not_false, Bool.true_and, hc, if_false]
    cases earliestTs db.rows with
    | none => rfl
    | some e =>
        cases latestTs db.rows with
        | none => rfl
        | some l =>
            by_cases he : e ≤ now - target_days * 24
            · simp [he]
            · simp [he]

theorem backfill_skip (provider : ℕ → ℕ → List (ℕ × Candle))
    (now target_days : ℕ) (db : AssetDB) (h : db.completed = true) :
    backfill_asset provider now target_days false db = db := by
  unfold backfill_asset
  simp [h]

end Storage

/-- C8: batch candle upserts are idempotent on the row key — re-running
the same batch leaves the stored (sorted) row set literally unchanged —
and running `backfill_asset` a second time over the same range is a
no-op: the first successful run marks the asset completed, and a
non-forced rerun returns the stored state untouched (identical row
set, row count, and backfill state). -/
theorem upsert_backfill_idempotent :
    (∀ (rows batch : List (ℕ × Storage.Candle)), Storage.SortedKeys rows →
      Storage.upsert_ohlcv_batch (Storage.upsert_ohlcv_batch rows batch) batch
        = Storage.upsert_ohlcv_batch rows batch) ∧
    (∀ (provider : ℕ → ℕ → List (ℕ × Storage.Candle))
        (now target_days : ℕ) (db : Storage.AssetDB),
      Storage.backfill_asset provider now target_days false
          (Storage.backfill_asset provider now target_days false db)
        = Storage.backfill_asset provider now target_days false db) := by
  constructor
  · intro rows batch hs
    have hs1 := Storage.upsert_batch_sorted rows batch hs
    have hs2 := Storage.upsert_batch_sorted _ batch hs1
    apply Storage.ext_sorted _ _ hs2 hs1
    intro t
    rw [Storage.lookup_upsert_batch, Storage.lookup_upsert_batch]
    cases Storage.lastVal batch t with
    | some c => rfl
    | none => rfl
  · intro provider now target_days db
    exact Storage.backfill_skip provider now target_days _
      (Storage.backfill_completed provider now target_days db)

theorem upsert_backfill_idempotent_witness :
    Storage.upsert_ohlcv_batch
        (Storage.upsert_ohlcv_batch [(0, {close := 1})]
          [(12, {close := 2}), (0, {close := 3})])
        [(12, {close := 2}), (0, {close := 3})]
      = Storage.upsert_ohlcv_batch [(0, {close := 1})]
          [(12, {close := 2}), (0, {close := 3})] ∧
    Storage.backfill_asset (fun _ _ => []) 1000 30 false
        (Storage.backfill_asset (fun _ _ => []) 1000 30 false {})
      = Storage.backfill_asset (fun _ _ => []) 1000 30 false {} := by
  constructor
  · exact upsert_backfill_idempotent.1 [(0, {close := 1})]
      [(12, {close := 2}), (0, {close := 3})]
      (List.chain'_singleton _)
  · exact upsert_backfill_idempotent.2 (fun _ _ => []) 1000 30 {}

namespace Lending

/-- Seconds per year used by the RAY → APY conversion in `models.py`. -/
def SECONDS_PER_YEAR : ℕ := 31536000

/-- `convert_ray_to_apy` from `models.py`.  The arithmetic is embedded
exactly over `ℚ`; the `overflow` flag stands for the `OverflowError`
raised by the floating-point power operation (a float-range event that
has no exact-arithmetic characterisation), in which case the source
returns the cap `1000000.0` (one million percent APY). -/
def convert_ray_to_apy (ray : ℚ) (overflow : Bool) : ℚ :=
  let apr := ray / 10 ^ 27
  if overflow then 1000000
  else ((1 + apr / (SECONDS_PER_YEAR : ℚ)) ^ SECONDS_PER_YEAR - 1) * 100

/-- The conversion as the spec words it: `APR = RAY/10²⁷`,
`APY = (1 + APR/SEC_PER_YEAR)^SEC_PER_YEAR − 1`, reported in percent. -/
def spec_ray_to_apy (ray : ℚ) : ℚ :=
  let APR := ray / 10 ^ 27
  let APY := (1 + APR / 31536000) ^ 31536000 - 1
  APY * 100

end Lending

/-- C7: the RAY → APY conversion returns
`((1 + APR/31536000)^31536000 − 1) · 100` with `APR = RAY/10²⁷`, and
when the power computation overflows it returns exactly the cap
`1000000.0` (one million percent APY). -/
theorem ray_to_apy_correct (ray : ℚ) :
    Lending.convert_ray_to_apy ray false = Lending.spec_ray_to_apy ray ∧
      Lending.convert_ray_to_apy ray true = 1000000 := ⟨rfl, rfl⟩

/-- C9: for a spot or futures position the valuation looks the price up
first under the composite `(asset, position_type)` key, falls back to
the bare asset key when the composite key is absent, and raises
`ValueError` exactly when neither key holds a price; an unknown
position type also raises `ValueError`. -/
theorem position_value_price_lookup
    (pos : Portfolio.Position) (prices : Portfolio.PriceMap)
    (indices : Option (List (String × Portfolio.LendingIndices))) :
    (pos.position_type ∈ (["spot", "futures_long", "futures_short"] : List String) →
      (∀ p, prices.getComposite (pos.asset, pos.position_type) = some p →
          Portfolio.calculate_position_value pos prices indices
            = .ok (Portfolio.spotFuturesValue pos p)) ∧
      (prices.getComposite (pos.asset, pos.position_type) = none →
        ∀ p, prices.getPlain pos.asset = some p →
          Portfolio.calculate_position_value pos prices indices
            = .ok (Portfolio.spotFuturesValue pos p)) ∧
      (prices.getComposite (pos.asset, pos.position_type) = none →
        prices.getPlain pos.asset = none →
          ∃ msg, Portfolio.calculate_position_value pos prices indices
            = .error msg)) ∧
    (pos.position_type ∉ (["spot", "futures_long", "futures_short",
        "lending_supply", "lending_borrow"] : List String) →
      ∃ msg, Portfolio.calculate_position_value pos prices indices
        = .error msg) := by
  constructor
  · intro ht
    simp only [List.mem_cons, List.not_mem_nil, or_false] at ht
    have hlend : ¬ (pos.position_type = "lending_supply"
        ∨ pos.position_type = "lending_borrow") := by
      rcases ht with h | h | h <;> simp [h]
    refine ⟨?_, ?_, ?_⟩
    · intro p hp
      rcases ht with h | h | h <;> rw [h] at hp <;>
        simp [Portfolio.calculate_position_value, Portfolio.spotFuturesValue,
          hlend, h, hp]
    · intro hc p hp
      rcases ht with h | h | h <;> rw [h] at hc <;>
        simp [Portfolio.calculate_position_value, Portfolio.spotFuturesValue,
          hlend, h, hc, hp]
    · intro hc hp
      refine ⟨"No current price available", ?_⟩
      rcases ht with h | h | h <;> rw [h] at hc <;>
        simp [Portfolio.calculate_position_value, hlend, h, hc, hp]
  · intro ht
    simp only [List.mem_cons, List.not_mem_nil, or_false, not_or] at ht
    obtain ⟨h1, h2, h3, h4, h5⟩ := ht
    have hlend : ¬ (pos.position_type = "lending_supply"
        ∨ pos.position_type = "lending_borrow") := by simp [h4, h5]
    cases hc : prices.getComposite (pos.asset, pos.position_type) with
    | some p =>
        refine ⟨"Unknown position type", ?_⟩
        simp [Portfolio.calculate_position_value, hlend, hc, h1, h2, h3]
    | none =>
        cases hp : prices.getPlain pos.asset with
        | some p =>
            refine ⟨"Unknown position type", ?_⟩
            simp [Portfolio.calculate_position_value, hlend, hc, hp,
              h1, h2, h3]
        | none =>
            refine ⟨"No current price available", ?_⟩
            simp [Portfolio.calculate_position_value, hlend, hc, hp]

theorem position_value_price_lookup_witness :
    Portfolio.calculate_position_value
        { asset := "BTC", quantity := 2, position_type := "spot",
          entry_price := 100 }
        ⟨[], [("BTC", 50)]⟩ none
      = .ok (Portfolio.spotFuturesValue
          { asset := "BTC", quantity := 2, position_type := "spot",
            entry_price := 100 } 50) := by
  have h := position_value_price_lookup
    { asset := "BTC", quantity := 2, position_type := "spot",
      entry_price := 100 }
    ⟨[], [("BTC", 50)]⟩ none
  exact (h.1 (by decide)).2.1 rfl 50 rfl

/-- C10: lending-account metrics tolerate assets missing from the
configured constant maps: the health factor is computed as if the
liquidation-threshold map contained `0.50` for the unknown asset, and
the max-safe-borrow as if the max-LTV map contained `0.75` for it. -/
theorem lending_defaults_for_unknown_asset
    (positions supply_positions : List Portfolio.Position)
    (borrowed collateral debt : ℚ)
    (thresholds ltvs : List (String × ℚ)) (a : String)
    (hth : a ∉ thresholds.map Prod.fst) (hltv : a ∉ ltvs.map Prod.fst) :
    Portfolio.calculate_health_factor positions borrowed
        ((a, 1/2) :: thresholds)
      = Portfolio.calculate_health_factor positions borrowed thresholds ∧
    Portfolio.max_safe_borrow supply_positions collateral debt
        ((a, 3/4) :: ltvs)
      = Portfolio.max_safe_borrow supply_positions collateral debt ltvs := by
  constructor
  · unfold Portfolio.calculate_health_factor
    have hfold : ∀ (ps : List Portfolio.Position) (acc : ℚ),
        ps.foldl (fun acc pos =>
          if pos.position_type ≠ "lending_supply" then acc
          else acc + pos.value
            * Portfolio.lookupD ((a, 1/2) :: thresholds) pos.asset (1/2)) acc
        = ps.foldl (fun acc pos =>
          if pos.position_type ≠ "lending_supply" then acc
          else acc + pos.value
            * Portfolio.lookupD thresholds pos.asset (1/2)) acc := by
      intro ps acc
      simp only [Portfolio.lookupD_cons_fresh thresholds a _ hth]
    rw [hfold]
  · unfold Portfolio.max_safe_borrow Portfolio.weighted_max_ltv
    have hfold : ∀ (ps : List Portfolio.Position) (acc : ℚ),
        ps.foldl (fun acc pos =>
          acc + pos.value / collateral
            * Portfolio.lookupD ((a, 3/4) :: ltvs) pos.asset (3/4)) acc
        = ps.foldl (fun acc pos =>
          acc + pos.value / collateral
            * Portfolio.lookupD ltvs pos.asset (3/4)) acc := by
      intro ps acc
      simp only [Portfolio.lookupD_cons_fresh ltvs a _ hltv]
    rw [hfold]

theorem lending_defaults_for_unknown_asset_witness :
    Portfolio.calculate_health_factor
        [{ asset := "FOO", quantity := 1, position_type := "lending_supply",
           value := 1000 }] 100 [("FOO", 1/2), ("WETH", 825/1000)]
      = Portfolio.calculate_health_factor
        [{ asset := "FOO", quantity := 1, position_type := "lending_supply",
           value := 1000 }] 100 [("WETH", 825/1000)] ∧
    Portfolio.max_safe_borrow
        [{ asset := "FOO", quantity := 1, position_type := "lending_supply",
           value := 1000 }] 1000 100 [("FOO", 3/4), ("WETH", 8/10)]
      = Portfolio.max_safe_borrow
        [{ asset := "FOO", quantity := 1, position_type := "lending_supply",
           value := 1000 }] 1000 100 [("WETH", 8/10)] :=
  lending_defaults_for_unknown_asset
    [{ asset := "FOO", quantity := 1, position_type := "lending_supply",
       value := 1000 }]
    [{ asset := "FOO", quantity := 1, position_type := "lending_supply",
       value := 1000 }]
    100 1000 100 [("WETH", 825/1000)] [("WETH", 8/10)] "FOO"
    (by decide) (by decide)

/-- C1: for a futures long position the value returned by the valuation
is `margin + pnl` with `margin = q·e/l` and `pnl = (P − e)·q`; changing
the leverage changes the margin term only and never the P&L term, and at
`q = 10`, `e = 2000`, `l = 5`, `P = 2200` the value is exactly `6000`. -/
theorem futures_long_value_correct
    (q e l P : ℚ) (hq : 0 < q) (he : 0 < e) (hl : 0 < l) (hl125 : l ≤ 125) :
    Portfolio.calculate_futures_long_value q e P l = q * e / l + (P - e) * q ∧
      (∀ l' : ℚ, 0 < l' →
        Portfolio.calculate_futures_long_value q e P l'
          - Portfolio.calculate_futures_long_value q e P l
          = q * e / l' - q * e / l) ∧
      Portfolio.calculate_futures_long_value 10 2000 2200 5 = 6000 := by
  refine ⟨rfl, fun l' _ => ?_, by norm_num [Portfolio.calculate_futures_long_value]⟩
  simp only [Portfolio.calculate_futures_long_value]
  ring

theorem futures_long_value_correct_witness :
    Portfolio.calculate_futures_long_value 10 2000 2200 5
        = 10 * 2000 / 5 + (2200 - 2000) * 10 ∧
      Portfolio.calculate_futures_long_value 10 2000 2300 5
          - Portfolio.calculate_futures_long_value 10 2000 2200 5
        = (2300 - 2200) * 10 := by
  have h := futures_long_value_correct 10 2000 5 2200
    (by norm_num) (by norm_num) (by norm_num) (by norm_num)
  refine ⟨h.1, ?_⟩
  norm_num [Portfolio.calculate_futures_long_value]

/-- C3: delta exposure is the sum of spot quantities plus futures-long
quantities minus futures-short quantities, and doubling the leverage of
every futures position leaves it unchanged. -/
theorem delta_exposure_correct (positions : List Portfolio.Position) :
    Portfolio.calculate_delta_exposure positions =
        Portfolio.typeQuantities "spot" positions
          + Portfolio.typeQuantities "futures_long" positions
          - Portfolio.typeQuantities "futures_short" positions ∧
      Portfolio.calculate_delta_exposure
          (positions.map Portfolio.doubleFuturesLeverage)
        = Portfolio.calculate_delta_exposure positions := by
  constructor
  · rw [Portfolio.calculate_delta_exposure_eq_foldl]
    exact Portfolio.delta_decomposition positions
  · rw [Portfolio.calculate_delta_exposure_eq_foldl,
      Portfolio.calculate_delta_exposure_eq_foldl]
    induction positions with
    | nil => rfl
    | cons p ps ih =>
        rw [List.map_cons, List.foldl_cons, List.foldl_cons,
          Portfolio.deltaStep_doubleFuturesLeverage,
          Portfolio.foldl_deltaStep_eq (ps.map Portfolio.doubleFuturesLeverage),
          Portfolio.foldl_deltaStep_eq ps, ih]
